import Mathlib

/-!
Shallow embedding of the vscode-mjml extension sources:
  - `Preview` (webview-based preview controller, src/unnamed/part_000),
  - `ExportHTML` and `Helper` (src/src/exportProvider.ts),
  - `PreviewContentProvider` and `IDMap` (src/src/previewProvider.ts).

External library calls (the MJML compiler, the EJS templating engine,
the file-url / path node modules, the vscode API) are modelled as explicit
function parameters or as small state records; everything the repository
itself computes is translated directly from the TypeScript.
-/

/-- Single quote character as a string, used to build concrete HTML inputs. -/
def squo : String := "\u0027"

/-- A vscode text document, restricted to the fields the extension reads:
`languageId`, `uri.scheme`, `fileName` (= `uri.fsPath` for file documents)
and the text returned by `getText()`. -/
structure Document where
  languageId : String
  uriScheme : String
  fileName : String
  text : String
deriving DecidableEq, Repr

/-- The part of the workspace the helper touches: the open text documents
(`vscode.workspace.textDocuments`, as fileName/text pairs) and the files on
disk (for `existsSync` / `readFileSync`, as fileName/contents pairs). -/
structure FS where
  openDocs : List (String × String)
  diskFiles : List (String × String)
deriving Repr

/-- Index of the last slash in a string, if any (JS `lastIndexOf("/")`,
except that absence is `none` rather than `-1`). -/
def lastSlashPos (s : String) : Option Nat :=
  let idxs := (List.range s.data.length).filter (fun i => s.data.getD i ' ' == '/')
  idxs.getLast?

/-- `currentFileName.substring(0, currentFileName.lastIndexOf("/"))`:
the folder part of a file name; empty when there is no slash
(JS `substring(0, -1)` is the empty string). -/
def fileFolderOf (s : String) : String :=
  match lastSlashPos s with
  | none => ""
  | some i => String.mk (s.data.take i)

/-- Node `path.basename`: the part after the last slash. -/
def baseName (p : String) : String :=
  match lastSlashPos p with
  | none => p
  | some i => String.mk (p.data.drop (i + 1))

/-- Node `path.dirname`: the part before the last slash, `"."` when there is
no slash, `"/"` for a file directly under the root. -/
def dirname (p : String) : String :=
  match lastSlashPos p with
  | none => "."
  | some 0 => "/"
  | some i => String.mk (p.data.take i)

namespace Helper

/-- `Helper.isMJMLFile` (exportProvider.ts lines 78-80):
`document.languageId === "mjml" && document.uri.scheme !== "mjml-preview"`. -/
def isMJMLFile (d : Document) : Bool :=
  d.languageId == "mjml" && d.uriScheme != "mjml-preview"

/-- `Helper.resolveFileOrText` (exportProvider.ts lines 142-153): the text of
an open document with that file name, else the file contents when
`path.dirname(fileName)` is truthy (it always is a non-empty string in node)
and the file exists on disk, else `undefined`. -/
def resolveFileOrText (fs : FS) (fileName : String) : Option String :=
  match fs.openDocs.find? (fun e => e.1 == fileName) with
  | some e => some e.2
  | none =>
    if dirname fileName != "" then
      (fs.diskFiles.find? (fun e => e.1 == fileName)).map (fun e => e.2)
    else none

/-- `Helper.compileHtml` (exportProvider.ts lines 101-122): looks for a
sibling `preview.json` next to the current file; when that data source
resolves to a truthy (non-empty) string it runs the EJS templating pre-pass,
otherwise it returns the input unchanged.  `JSON.parse`, the optional helper
module import and the EJS compile/render are external calls, modelled by the
parameter `render` (data-source text and input html to rendered output);
any exception they throw is an `Except.error` carrying the message. -/
def compileHtml (fs : FS) (currentFileName : String)
    (render : String → String → Except String String) (html : String) :
    Except String String :=
  let fileFolder := fileFolderOf currentFileName
  let dataFileName := fileFolder ++ "/preview.json"
  match resolveFileOrText fs dataFileName with
  | some ds => if ds != "" then render ds html else Except.ok html
  | none => Except.ok html

/-- The object returned by the external `mjml2html` library call: the
extension only reads its `html` field, which may be missing (`none`) or an
empty string, both falsy in JS. -/
structure MjmlOutput where
  html : Option String
deriving DecidableEq, Repr

/-- `Helper.mjml2html` (exportProvider.ts lines 82-99): wraps the external
compiler call, whose outcome (a result object, or a thrown exception) is the
parameter `res`.  On an exception or a falsy `html` field the function falls
through and returns `undefined`; otherwise it returns the `html` string. -/
def mjml2html (res : Except String MjmlOutput) : Option String :=
  match res with
  | Except.error _ => none
  | Except.ok o =>
    match o.html with
    | some s => if s != "" then some s else none
    | none => none

end Helper

/-! ### The fixLinks regular-expression engine

`Helper.fixLinks` (exportProvider.ts lines 133-140) is a global replace of

  `((?:src|href|url)(?:=|\()(?:['"]|))((?!http|\\|"|#).+?)(['"]|\))`   (flags gmi)

with `p1 + fileUrl(path.join(path.dirname(doc.fsPath), p2)) + p3`.  The
engine below is that regex, specialised: scan positions left to right; at a
position, match one of the tokens src/href/url case-insensitively, then `=`
or `(`, then optionally a quote (the quoted alternative is preferred, the
engine backtracks to the unquoted one); check the negative lookahead
(not http, backslash, double quote or hash); then take the lazy `.+?` body:
the shortest non-empty run of non-newline characters followed by a quote or
a closing parenthesis.  On a match the body is replaced by `toUrl` applied
to it (`toUrl` stands for the external `fileUrl(path.join(dirname, .))`)
and scanning resumes after the match; otherwise one character is copied. -/

/-- Case-insensitive prefix test: does `cs` start with the (lowercase)
pattern `p`, comparing characters through `Char.toLower`? -/
def startsWithCI : List Char → List Char → Bool
  | [], _ => true
  | _ :: _, [] => false
  | p :: ps, c :: cs => c.toLower == p && startsWithCI ps cs

/-- Line terminators, which `.` does not match in a JS regex. -/
def isNL (c : Char) : Bool := c == '\n' || c == '\r'

/-- The characters closing the lazy body: a quote or a closing parenthesis. -/
def isTerm (c : Char) : Bool := c == '\u0027' || c == '"' || c == ')'

/-- The optional opening quote after `=` or `(`. -/
def isQuote (c : Char) : Bool := c == '\u0027' || c == '"'

/-- The negative lookahead `(?!http|\\|"|#)` (case-insensitive for `http`). -/
def lookaheadOK (cs : List Char) : Bool :=
  !(startsWithCI "http".data cs) &&
  (match cs with
   | [] => true
   | c :: _ => !(c == '\\' || c == '"' || c == '#'))

/-- The lazy body `(.+?)` followed by the closing group: the shortest
non-empty run of non-newline characters whose next character is a
terminator.  Returns the run, the terminator and the remaining input. -/
def findLazy : List Char → Option (List Char × Char × List Char)
  | [] => none
  | c :: rest =>
    if isNL c then none
    else
      match rest with
      | [] => none
      | t :: rest2 =>
        if isTerm t then some ([c], t, rest2)
        else (findLazy rest).map (fun r => (c :: r.1, r.2.1, r.2.2))

/-- The token alternation `(?:src|href|url)` (case-insensitive): the length
of the matched token, if any. -/
def matchTok (cs : List Char) : Option Nat :=
  if startsWithCI "src".data cs then some 3
  else if startsWithCI "href".data cs then some 4
  else if startsWithCI "url".data cs then some 3
  else none

/-- After group 1 has consumed `p1`, check the lookahead and take the lazy
body from `cs`; on success return the replacement text of the whole match
and the remaining input. -/
def matchAfterP1 (toUrl : String → String) (p1 cs : List Char) :
    Option (List Char × List Char) :=
  if lookaheadOK cs then
    match findLazy cs with
    | some r => some (p1 ++ (toUrl (String.mk r.1)).data ++ [r.2.1], r.2.2)
    | none => none
  else none

/-- Attempt the whole regex at the head of `cs`: token, `=` or `(`, the
preferred quoted alternative with fallback to the unquoted one, lookahead
and lazy body.  Returns the replacement text and the rest of the input. -/
def tryMatch (toUrl : String → String) (cs : List Char) :
    Option (List Char × List Char) :=
  match matchTok cs with
  | none => none
  | some n =>
    let p1a := cs.take n
    match cs.drop n with
    | [] => none
    | e :: rest1 =>
      if e == '=' || e == '(' then
        match rest1 with
        | [] => matchAfterP1 toUrl (p1a ++ [e]) rest1
        | q :: rest2 =>
          if isQuote q then
            match matchAfterP1 toUrl (p1a ++ [e, q]) rest2 with
            | some r => some r
            | none => matchAfterP1 toUrl (p1a ++ [e]) rest1
          else matchAfterP1 toUrl (p1a ++ [e]) rest1
      else none

/-- The global scan: at each position try the regex; on a match emit the
replacement and continue after it, otherwise copy one character.  Each step
consumes at least one input character, so fuel equal to the input length
suffices (`fixLinksGo_fuel` below proves the fuel is irrelevant from the
input length on). -/
def fixLinksGo (toUrl : String → String) : Nat → List Char → List Char
  | 0, cs => cs
  | _ + 1, [] => []
  | fuel + 1, c :: rest =>
    match tryMatch toUrl (c :: rest) with
    | some r => r.1 ++ fixLinksGo toUrl fuel r.2
    | none => c :: fixLinksGo toUrl fuel rest

/-- `Helper.fixLinks` (exportProvider.ts lines 133-140), with the external
`fileUrl(path.join(path.dirname(active document fsPath), relative))`
conversion abstracted as `toUrl`. -/
def Helper.fixLinks (toUrl : String → String) (text : String) : String :=
  String.mk (fixLinksGo toUrl text.data.length text.data)

/-- The message shown when the compiler returns no HTML. -/
def noMjmlMsg : String := "Active editor doesn" ++ squo ++ "t show a MJML document."

namespace Helper

/-- `Helper.renderMJML` (exportProvider.ts lines 52-76).  `doc` is the active
editor document; `call` is the external compiler (input text, minify flag,
beautify flag); `render` is the EJS templating engine; `cfgMinify` and
`cfgBeautify` are the `mjml.minifyHtmlOutput` / `mjml.beautifyHtmlOutput`
configuration values; the three `Option Bool` arguments are the optional
`fixLinks`, `minify` and `beautify` parameters (absent = `none`).
The result is the value handed to the callback (`none` when a warning or an
error message is shown instead), or `Except.error` when the un-caught
templating pre-pass throws and the promise rejects. -/
def renderMJML (fs : FS) (doc : Document) (toUrl : String → String)
    (call : String → Bool → Bool → Except String MjmlOutput)
    (render : String → String → Except String String)
    (cfgMinify cfgBeautify : Bool)
    (fixArg minifyArg beautifyArg : Option Bool) :
    Except String (Option String) :=
  if !(isMJMLFile doc) then Except.ok none
  else
    match compileHtml fs doc.fileName render doc.text with
    | Except.error e => Except.error e
    | Except.ok content =>
      match mjml2html (call content (minifyArg.getD cfgMinify)
          (beautifyArg.getD cfgBeautify)) with
      | some c =>
        Except.ok (some (if fixArg.getD false then fixLinks toUrl c else c))
      | none => Except.ok none

end Helper

/-- `ExportHTML.export` (exportProvider.ts lines 19-37) calls
`helper.renderMJML(cb)` with none of the optional arguments, and `cb`
receives the content that is then written to disk.  This definition is the
content handed to that callback. -/
def ExportHTML.exportContent (fs : FS) (doc : Document)
    (toUrl : String → String)
    (call : String → Bool → Bool → Except String Helper.MjmlOutput)
    (render : String → String → Except String String)
    (cfgMinify cfgBeautify : Bool) : Except String (Option String) :=
  Helper.renderMJML fs doc toUrl call render cfgMinify cfgBeautify
    none none none

namespace PreviewContentProvider

/-- `PreviewContentProvider.error` (previewProvider.ts lines 176-178). -/
def error (e : String) : String := "<body>" ++ e ++ "</body>"

/-- `PreviewContentProvider.renderMJML` (previewProvider.ts lines 158-174):
the preview content.  The templating pre-pass is guarded by try/catch; the
compiler is called with `minify = false, beautify = false`; a truthy result
goes through `helper.fixLinks`, otherwise the error placeholder is
returned. -/
def renderMJML (fs : FS) (doc : Document) (toUrl : String → String)
    (call : String → Bool → Bool → Except String Helper.MjmlOutput)
    (render : String → String → Except String String) : String :=
  match Helper.compileHtml fs doc.fileName render doc.text with
  | Except.error err => error err
  | Except.ok h =>
    match Helper.mjml2html (call h false false) with
    | some html => Helper.fixLinks toUrl html
    | none => error noMjmlMsg

end PreviewContentProvider

namespace Preview

/-- A webview panel as the controller uses it: a title and the HTML shown. -/
structure WebviewPanel where
  title : String
  html : String
deriving DecidableEq, Repr

/-- The controller state (src/unnamed/part_000): the tracked document list,
the `previewOpen` flag and the `webview` field; `livePanels` counts the
webview panels that have been created and not yet disposed, so that the
at-most-one-panel invariant is expressible. -/
structure State where
  openedDocuments : List String
  previewOpen : Bool
  webview : Option WebviewPanel
  livePanels : Nat
deriving DecidableEq, Repr

/-- `Preview.error` (part_000 lines 137-139). -/
def error (e : String) : String := "<body>" ++ e ++ "</body>"

/-- `Preview.addDocument` (part_000 lines 141-145): push the file name only
when `indexOf` returns `-1`, i.e. when it is not already present. -/
def addDocument (docs : List String) (fileName : String) : List String :=
  if fileName ∈ docs then docs else docs ++ [fileName]

/-- `Preview.removeDocument` (part_000 lines 147-149): keep the entries
different from the file name. -/
def removeDocument (docs : List String) (fileName : String) : List String :=
  docs.filter (fun file => file != fileName)

/-- `Preview.getContent` (part_000 lines 103-121): run the templating
pre-pass (returning the error placeholder on a throw), call the compiler
(`mjmlCall` is the external call composed with the `.html` field read, as
wrapped by the helper, which never throws), and on a truthy result record
the document and post-process with `fixImages` (external, abstracted as
`fixImagesF`) and `setBackgroundColor` (config-dependent, abstracted as
`setBg`); on a falsy result return the error placeholder.  The result pairs
the returned HTML with the updated `openedDocuments` list. -/
def getContent (fs : FS) (doc : Document)
    (render : String → String → Except String String)
    (mjmlCall : String → Option String)
    (fixImagesF setBg : String → String)
    (docs : List String) : String × List String :=
  match Helper.compileHtml fs doc.fileName render doc.text with
  | Except.error err => (error err, docs)
  | Except.ok h =>
    match mjmlCall h with
    | some s =>
      if s != "" then (setBg (fixImagesF s), addDocument docs doc.fileName)
      else (error noMjmlMsg, docs)
    | none => (error noMjmlMsg, docs)

/-- `Preview.displayWebView` (part_000 lines 68-101): return unchanged when
the document is not an MJML file or there is no active editor; otherwise
compute the content and the label, and either create the panel (when
`webview` is undefined; `livePanels` goes up by one) or update the existing
panel title and HTML in place. -/
def displayWebView (fs : FS) (render : String → String → Except String String)
    (mjmlCall : String → Option String) (fixImagesF setBg : String → String)
    (s : State) (doc : Document) (activeEditor : Option Document) : State :=
  if !(Helper.isMJMLFile doc) then s
  else
    match activeEditor with
    | none => s
    | some aDoc =>
      let r := getContent fs doc render mjmlCall fixImagesF setBg
        s.openedDocuments
      let label := "MJML Preview - " ++ baseName aDoc.fileName
      match s.webview with
      | none =>
        { s with openedDocuments := r.2,
                 webview := some ⟨label, r.1⟩,
                 livePanels := s.livePanels + 1 }
      | some _ =>
        { s with openedDocuments := r.2, webview := some ⟨label, r.1⟩ }

/-- `Preview.dispose` (part_000 lines 62-66) together with the
`onDidDispose` handler (lines 88-91): when a webview exists it is disposed,
which clears the `webview` field and the `previewOpen` flag; `livePanels`
goes down by one since the panel no longer exists. -/
def dispose (s : State) : State :=
  match s.webview with
  | some _ =>
    { s with webview := none, previewOpen := false,
             livePanels := s.livePanels - 1 }
  | none => s

/-- The `onDidCloseTextDocument` handler (part_000 lines 50-58): when a
document closed while `previewOpen` and a webview exists, its file name is
removed from the tracked list, and when the list is then empty and the
`mjml.autoClosePreview` flag is set, the preview is disposed. -/
def onDidCloseTextDocument (autoClose : Bool) (s : State)
    (closed : Option Document) : State :=
  match closed with
  | none => s
  | some d =>
    if s.previewOpen && s.webview.isSome then
      let s1 := { s with
        openedDocuments := removeDocument s.openedDocuments d.fileName }
      if s1.openedDocuments.length == 0 && autoClose then dispose s1 else s1
    else s

/-- The coupling between the panel count and the `webview` field: exactly
one live panel exists when the field is set, none otherwise. -/
def WebviewInv (s : State) : Prop :=
  s.livePanels = (if s.webview.isSome then 1 else 0)

end Preview

/-- A `vscode.Uri` as stored in the `IDMap` key tuples.  It is a distinct
type from `String` because the JS strict equality used by
`Array.prototype.indexOf` never equates the `Uri` object with a string. -/
structure Uri where
  raw : String
deriving DecidableEq, Repr

namespace IDMap

/-- The `IDMap.map`, a JS `Map` from `[documentUri, previewUri]` tuples to
id strings, kept in insertion order (JS `Map` iteration order).  Each `add`
creates a fresh tuple object, so `set` always appends a new entry. -/
abbrev T := List ((String × Uri) × String)

/-- `IDMap.getByUri` (previewProvider.ts lines 197-210): walk the keys in
insertion order and return the id of the first tuple containing the string.
`indexOf(uri)` on the tuple compares `uri` with both components by strict
equality; the `Uri` object component never equals a string, so only the
`documentUri` component can match. -/
def getByUri (m : T) (uri : String) : Option String :=
  (List.find? (fun e => e.1.1 == uri) m).map (fun e => e.2)

/-- `IDMap.hasUri` (previewProvider.ts lines 212-214). -/
def hasUri (m : T) (uri : String) : Bool :=
  (getByUri m uri).isSome

/-- `IDMap.add` (previewProvider.ts lines 216-221): append the new tuple
with the freshly generated id (the UUID generator is random, so the id is a
parameter) and return the id. -/
def add (m : T) (documentUri : String) (previewUri : Uri) (id : String) :
    T × String :=
  (m ++ [((documentUri, previewUri), id)], id)

end IDMap

/-! ### A specification-level reading of the fixLinks scan

`fixLinksSpec` re-states the scan from the amended claim wording: an asset
reference is one of the tokens `src`, `href`, `url` (case-insensitively,
checked against a token list) followed by `=` or `(` and an optional
quote; its value must not begin with `http` (case-insensitively), a
backslash, a double quote or a hash, and extends over non-newline
characters up to the first quote or closing parenthesis; the value is
replaced by the file-URL conversion of the value and everything else is
copied unchanged.  It is compared with the engine translated from the
source (`fixLinks_eq_spec`). -/

/-- The token list of the claim, matched case-insensitively. -/
def specTokLen (cs : List Char) : Option Nat :=
  (List.find? (fun tok => startsWithCI tok.data cs) ["src", "href", "url"]).map
    (fun tok => tok.length)

/-- The value of a reference per the claim wording: the characters up to
the first quote or closing parenthesis (at least one), none of them a line
terminator; returns the value, the terminator and the rest. -/
def specFindValue (cs : List Char) : Option (List Char × Char × List Char) :=
  match cs with
  | [] => none
  | c :: rest =>
    let pre := rest.takeWhile (fun t => !(isTerm t))
    match rest.dropWhile (fun t => !(isTerm t)) with
    | [] => none
    | t :: post =>
      if (c :: pre).all (fun x => !(isNL x)) then some (c :: pre, t, post)
      else none

/-- Lookahead plus value extraction, on the claim reading. -/
def specMatchAfterP1 (toUrl : String → String) (p1 cs : List Char) :
    Option (List Char × List Char) :=
  if lookaheadOK cs then
    match specFindValue cs with
    | some r => some (p1 ++ (toUrl (String.mk r.1)).data ++ [r.2.1], r.2.2)
    | none => none
  else none

/-- One reference attempted at the head of the input, on the claim reading:
token, delimiter, the quoted alternative preferred with fallback to the
unquoted one. -/
def specTryMatch (toUrl : String → String) (cs : List Char) :
    Option (List Char × List Char) :=
  match specTokLen cs with
  | none => none
  | some n =>
    let p1a := cs.take n
    match cs.drop n with
    | [] => none
    | e :: rest1 =>
      if e == '=' || e == '(' then
        match rest1 with
        | [] => specMatchAfterP1 toUrl (p1a ++ [e]) rest1
        | q :: rest2 =>
          if isQuote q then
            match specMatchAfterP1 toUrl (p1a ++ [e, q]) rest2 with
            | some r => some r
            | none => specMatchAfterP1 toUrl (p1a ++ [e]) rest1
          else specMatchAfterP1 toUrl (p1a ++ [e]) rest1
      else none

/-- The claim-level scan: rewrite each reference, copy everything else. -/
def fixLinksSpecGo (toUrl : String → String) : Nat → List Char → List Char
  | 0, cs => cs
  | _ + 1, [] => []
  | fuel + 1, c :: rest =>
    match specTryMatch toUrl (c :: rest) with
    | some r => r.1 ++ fixLinksSpecGo toUrl fuel r.2
    | none => c :: fixLinksSpecGo toUrl fuel rest

/-- The claim-level reading of `fixLinks` as a whole. -/
def fixLinksSpec (toUrl : String → String) (text : String) : String :=
  String.mk (fixLinksSpecGo toUrl text.data.length text.data)

/-! ### Concrete instances used to evaluate the development -/

/-- An empty workspace: no open documents, no files on disk. -/
def fsEmpty : FS := ⟨[], []⟩

/-- A workspace where a sibling `preview.json` is open in the editor. -/
def fsPrev : FS := ⟨[("/d/preview.json", "x")], []⟩

/-- A templating engine that returns its input unchanged. -/
def renderId : String → String → Except String String :=
  fun _ h => Except.ok h

/-- A templating engine that throws. -/
def renderBoom : String → String → Except String String :=
  fun _ _ => Except.error "boom"

/-- A previewable document. -/
def docMjml : Document := ⟨"mjml", "file", "/d/x.mjml", "<mjml/>"⟩

/-- A document that is not previewable (wrong language id). -/
def docHtml : Document := ⟨"html", "file", "/d/y.html", "<p/>"⟩

/-- A concrete link conversion standing for
`fileUrl(path.join(dirname, .))` on a document in `/d`. -/
def toUrlDemo (s : String) : String := "file:///d/" ++ s

/-- Compiler output holding one single-quoted relative image link. -/
def imgRel : String := "<img src=" ++ squo ++ "a.png" ++ squo ++ ">"

/-- An external compiler whose result is always `imgRel`. -/
def callImg : String → Bool → Bool → Except String Helper.MjmlOutput :=
  fun _ _ _ => Except.ok ⟨some imgRel⟩

/-- A compiler call whose `.html` field is always absent. -/
def mjmlNone : String → Option String := fun _ => none

/-- A compiler call that returns its input as the `.html` field. -/
def mjmlEcho : String → Option String := fun s => some s

/-- The controller state before any panel exists. -/
def stateEmpty : Preview.State := ⟨[], false, none, 0⟩

/-- A controller state with one live panel tracking one document. -/
def statePanel : Preview.State := ⟨["/d/x.mjml"], true, some ⟨"t", "h"⟩, 1⟩

/-- The source token alternation agrees with the claim token list. -/
theorem matchTok_eq_spec (cs : List Char) : matchTok cs = specTokLen cs := by
  unfold matchTok specTokLen
  by_cases h1 : startsWithCI "src".data cs <;>
    by_cases h2 : startsWithCI "href".data cs <;>
      by_cases h3 : startsWithCI "url".data cs <;>
        simp [List.find?, h1, h2, h3] <;> rfl

/-- The lazy body of the source engine is the claim value: the characters up
to the first terminator, all of them non-newline. -/
theorem findLazy_eq_spec (cs : List Char) : findLazy cs = specFindValue cs := by
  induction cs with
  | nil => rfl
  | cons c rest ih =>
    by_cases hc : isNL c
    · cases h : rest.dropWhile (fun t => !(isTerm t)) with
      | nil => simp [findLazy, specFindValue, hc, h]
      | cons t post => simp [findLazy, specFindValue, hc, h]
    · cases rest with
      | nil => simp [findLazy, specFindValue, hc]
      | cons t rest2 =>
        by_cases ht : isTerm t
        · simp [findLazy, specFindValue, hc, ht, List.takeWhile_cons,
            List.dropWhile_cons]
        · rw [findLazy, if_neg hc]
          simp only [ht, ih]
          cases h2 : rest2.dropWhile (fun x => !(isTerm x)) with
          | nil =>
            simp [specFindValue, List.takeWhile_cons, List.dropWhile_cons,
              ht, h2]
          | cons t2 post =>
            simp [specFindValue, List.takeWhile_cons, List.dropWhile_cons,
              ht, h2, hc]

/-- Lookahead-plus-body agrees between the two readings. -/
theorem matchAfterP1_eq_spec (toUrl : String → String) (p1 cs : List Char) :
    matchAfterP1 toUrl p1 cs = specMatchAfterP1 toUrl p1 cs := by
  unfold matchAfterP1 specMatchAfterP1
  rw [findLazy_eq_spec]

/-- A single match attempt agrees between the two readings. -/
theorem tryMatch_eq_spec (toUrl : String → String) (cs : List Char) :
    tryMatch toUrl cs = specTryMatch toUrl cs := by
  have hA : @matchAfterP1 = @specMatchAfterP1 := by
    funext f p c
    exact matchAfterP1_eq_spec f p c
  unfold tryMatch specTryMatch
  rw [matchTok_eq_spec, hA]

/-- The whole scan agrees between the two readings, for any fuel. -/
theorem fixLinksGo_eq_spec (toUrl : String → String) (fuel : Nat)
    (cs : List Char) :
    fixLinksGo toUrl fuel cs = fixLinksSpecGo toUrl fuel cs := by
  induction fuel generalizing cs with
  | zero => rfl
  | succ n ih =>
    cases cs with
    | nil => rfl
    | cons c rest =>
      rw [fixLinksGo, fixLinksSpecGo, tryMatch_eq_spec]
      cases specTryMatch toUrl (c :: rest) with
      | none => exact congrArg (List.cons c) (ih rest)
      | some r => exact congrArg (fun x => r.1 ++ x) (ih r.2)

/-- The lazy body leaves a remainder strictly shorter than its input. -/
theorem findLazy_consumes (cs : List Char)
    (r : List Char × Char × List Char) (h : findLazy cs = some r) :
    r.2.2.length < cs.length := by
  rw [findLazy_eq_spec] at h
  cases cs with
  | nil => simp [specFindValue] at h
  | cons c rest =>
    simp only [specFindValue] at h
    cases hdw : rest.dropWhile (fun t => !(isTerm t)) with
    | nil => rw [hdw] at h; simp at h
    | cons t post =>
      rw [hdw] at h
      dsimp only at h
      by_cases hall :
          (c :: rest.takeWhile (fun t => !(isTerm t))).all (fun x => !(isNL x))
      · rw [if_pos hall] at h
        cases h
        have hsub : (rest.dropWhile (fun t => !(isTerm t))).length ≤
            rest.length :=
          (List.dropWhile_sublist _).length_le
        rw [hdw] at hsub
        simp at hsub ⊢
        omega
      · rw [if_neg hall] at h
        simp at h

/-- A successful match attempt leaves a remainder strictly shorter than its
input. -/
theorem tryMatch_consumes (toUrl : String → String) (cs : List Char)
    (r : List Char × List Char) (h : tryMatch toUrl cs = some r) :
    r.2.length < cs.length := by
  have hafter : ∀ p1 cs2 r2, matchAfterP1 toUrl p1 cs2 = some r2 →
      r2.2.length < cs2.length := by
    intro p1 cs2 r2 h2
    unfold matchAfterP1 at h2
    by_cases hl : lookaheadOK cs2
    · rw [if_pos hl] at h2
      cases hf : findLazy cs2 with
      | none => rw [hf] at h2; simp at h2
      | some rf =>
        rw [hf] at h2
        injection h2 with h3
        subst h3
        simpa using findLazy_consumes cs2 rf hf
    · rw [if_neg hl] at h2; simp at h2
  unfold tryMatch at h
  cases hm : matchTok cs with
  | none => rw [hm] at h; simp at h
  | some n =>
    rw [hm] at h
    dsimp only at h
    cases hd : cs.drop n with
    | nil => rw [hd] at h; simp at h
    | cons e rest1 =>
      rw [hd] at h
      dsimp only at h
      have hlen1 : rest1.length + 1 + n ≤ cs.length + n := by
        have h1 := congrArg List.length hd
        rw [List.length_drop] at h1
        simp at h1
        omega
      by_cases he : e == '=' || e == '('
      · rw [if_pos he] at h
        cases rest1 with
        | nil =>
          have := hafter _ _ r h
          simp at this
        | cons q rest2 =>
          dsimp only at h
          by_cases hq : isQuote q
          · rw [if_pos hq] at h
            cases ha : matchAfterP1 toUrl (cs.take n ++ [e, q]) rest2 with
            | some r2 =>
              rw [ha] at h
              dsimp only at h
              injection h with h3
              subst h3
              have := hafter _ _ _ ha
              simp at hlen1
              omega
            | none =>
              rw [ha] at h
              have := hafter _ _ r h
              simp at hlen1 this ⊢
              omega
          · rw [if_neg hq] at h
            have := hafter _ _ r h
            simp at hlen1 this ⊢
            omega
      · rw [if_neg he] at h; simp at h

/-- The scan result does not depend on the fuel once the fuel covers the
input length: the fuel formulation is only a termination device. -/
theorem fixLinksGo_fuel (toUrl : String → String) (fuel1 fuel2 : Nat)
    (cs : List Char) (h1 : cs.length ≤ fuel1) (h2 : cs.length ≤ fuel2) :
    fixLinksGo toUrl fuel1 cs = fixLinksGo toUrl fuel2 cs := by
  induction fuel1 generalizing fuel2 cs with
  | zero =>
    have hnil : cs = [] := by
      cases cs with
      | nil => rfl
      | cons c r => simp at h1
    subst hnil
    cases fuel2 <;> rfl
  | succ n ih =>
    cases cs with
    | nil => cases fuel2 <;> rfl
    | cons c rest =>
      cases fuel2 with
      | zero => simp at h2
      | succ m =>
        rw [fixLinksGo, fixLinksGo]
        cases ht : tryMatch toUrl (c :: rest) with
        | none =>
          have hr : rest.length ≤ n := by simp at h1; omega
          have hr2 : rest.length ≤ m := by simp at h2; omega
          exact congrArg (List.cons c) (ih m rest hr hr2)
        | some r =>
          have hlt := tryMatch_consumes toUrl (c :: rest) r ht
          have hr : r.2.length ≤ n := by simp at hlt h1 ⊢; omega
          have hr2 : r.2.length ≤ m := by simp at hlt h2 ⊢; omega
          exact congrArg (fun x => r.1 ++ x) (ih m r.2 hr hr2)

/-! ### The claims -/

/-- C4, counterexample: the claim states that only `src=`, `href=` and
`url(` values are rewritten and that all other text is left unchanged, but
the source pattern `(?:src|href|url)(?:=|\()` also accepts the crossed
forms; a `url=` value (with a single-quoted relative path, matching none of
the three claimed forms) is rewritten, not left unchanged. -/
theorem claim_C4_fixLinks_forms_cex :
    Helper.fixLinks toUrlDemo ("url=" ++ squo ++ "a.png" ++ squo) =
      "url=" ++ squo ++ "file:///d/a.png" ++ squo ∧
    "url=" ++ squo ++ "a.png" ++ squo ≠
      "url=" ++ squo ++ "file:///d/a.png" ++ squo := by
  exact ⟨by rfl, by decide⟩

/-- C4, amended: `fixLinks` equals the claim-level scan `fixLinksSpec`:
every reference formed of one of the tokens `src`, `href`, `url`
(case-insensitively) followed by `=` or `(` and an optional quote, whose
value passes the lookahead (it does not begin with `http`
case-insensitively, a backslash, a double quote or a hash) and runs over
non-newline characters up to the first quote or closing parenthesis, is
rewritten by applying the absolute-file-URL conversion to the value; when
the quoted alternative has no such value the unquoted alternative is tried
(so the value may then begin at the single quote itself); all remaining
text is copied unchanged. -/
theorem claim_C4_fixLinks_characterization (toUrl : String → String)
    (text : String) :
    Helper.fixLinks toUrl text = fixLinksSpec toUrl text := by
  unfold Helper.fixLinks fixLinksSpec
  rw [fixLinksGo_eq_spec]

/-- C5: a document is previewable exactly when its language id is `mjml`
and its scheme is not `mjml-preview`, and `displayWebView` leaves the state
unchanged on a non-previewable document. -/
theorem claim_C5_previewable (d : Document) (fs : FS)
    (render : String → String → Except String String)
    (mjmlCall : String → Option String) (fixImagesF setBg : String → String)
    (s : Preview.State) (aEd : Option Document) :
    (Helper.isMJMLFile d = true ↔
      (d.languageId = "mjml" ∧ d.uriScheme ≠ "mjml-preview")) ∧
    (Helper.isMJMLFile d = false →
      Preview.displayWebView fs render mjmlCall fixImagesF setBg s d aEd
        = s) := by
  constructor
  · simp [Helper.isMJMLFile]
  · intro h
    simp [Preview.displayWebView, h]

/-- C5 witness: at a non-previewable concrete document the controller state
is untouched. -/
theorem claim_C5_previewable_witness :
    Preview.displayWebView fsEmpty renderId mjmlEcho id id stateEmpty
      docHtml none = stateEmpty :=
  (claim_C5_previewable docHtml fsEmpty renderId mjmlEcho id id stateEmpty
    none).2 (by decide)

/-- C7: when the sibling `preview.json` data source is neither open in the
editor nor on disk, `compileHtml` returns its input unchanged (the
templating pre-pass is an identity when absent). -/
theorem claim_C7_compileHtml_identity (fs : FS) (cur : String)
    (render : String → String → Except String String) (html : String)
    (hopen : ∀ e ∈ fs.openDocs, e.1 ≠ fileFolderOf cur ++ "/preview.json")
    (hdisk : ∀ e ∈ fs.diskFiles, e.1 ≠ fileFolderOf cur ++ "/preview.json") :
    Helper.compileHtml fs cur render html = Except.ok html := by
  unfold Helper.compileHtml Helper.resolveFileOrText
  have h1 : fs.openDocs.find?
      (fun e => e.1 == fileFolderOf cur ++ "/preview.json") = none :=
    List.find?_eq_none.mpr (by intro x hx; simpa using hopen x hx)
  have h2 : fs.diskFiles.find?
      (fun e => e.1 == fileFolderOf cur ++ "/preview.json") = none :=
    List.find?_eq_none.mpr (by intro x hx; simpa using hdisk x hx)
  simp [h1, h2]

/-- C7 witness: in the empty workspace the pre-pass returns the input. -/
theorem claim_C7_compileHtml_identity_witness :
    Helper.compileHtml fsEmpty "/d/x.mjml" renderBoom "abc" =
      Except.ok "abc" :=
  claim_C7_compileHtml_identity fsEmpty "/d/x.mjml" renderBoom "abc"
    (by simp [fsEmpty]) (by simp [fsEmpty])

/-- C8: the tracked document list behaves as a set: `addDocument` does not
insert a present name and appends an absent one, `removeDocument` keeps
exactly the entries different from the name (other entries and their
multiplicities unchanged), and both preserve duplicate-freeness. -/
theorem claim_C8_document_set (docs : List String) (f : String) :
    (f ∈ docs → Preview.addDocument docs f = docs) ∧
    (f ∉ docs → Preview.addDocument docs f = docs ++ [f]) ∧
    (docs.Nodup → (Preview.addDocument docs f).Nodup) ∧
    (∀ x, x ∈ Preview.removeDocument docs f ↔ (x ∈ docs ∧ x ≠ f)) ∧
    (∀ x, x ≠ f → (Preview.removeDocument docs f).count x = docs.count x) ∧
    (docs.Nodup → (Preview.removeDocument docs f).Nodup) := by
  refine ⟨?_, ?_, ?_, ?_, ?_, ?_⟩
  · intro h; simp [Preview.addDocument, h]
  · intro h; simp [Preview.addDocument, h]
  · intro h
    by_cases hf : f ∈ docs
    · simpa [Preview.addDocument, hf] using h
    · simp [Preview.addDocument, hf, List.nodup_append, h]
  · intro x
    simp [Preview.removeDocument, List.mem_filter, bne_iff_ne]
  · intro x hx
    exact List.count_filter (by simpa [bne_iff_ne] using hx)
  · intro h
    exact h.filter _

/-- C8 witness: adding a present name changes nothing. -/
theorem claim_C8_document_set_witness :
    Preview.addDocument ["/d/x.mjml"] "/d/x.mjml" = ["/d/x.mjml"] :=
  (claim_C8_document_set ["/d/x.mjml"] "/d/x.mjml").1 (by decide)

/-- C9: the `mjml2html` wrapper is total on every compiler outcome: a
thrown exception or a missing/empty `html` field gives `undefined`, and a
non-empty `html` field is returned as is. -/
theorem claim_C9_mjml2html_total (res : Except String Helper.MjmlOutput) :
    (∀ e, res = Except.error e → Helper.mjml2html res = none) ∧
    (∀ o, res = Except.ok o →
      ((o.html = none ∨ o.html = some "") → Helper.mjml2html res = none) ∧
      (∀ s, o.html = some s → s ≠ "" → Helper.mjml2html res = some s)) := by
  constructor
  · intro e he
    subst he
    rfl
  · intro o ho
    subst ho
    constructor
    · intro hf
      rcases hf with h | h <;> simp [Helper.mjml2html, h]
    · intro s hs hne
      simp [Helper.mjml2html, hs, hne]

/-- C9 witness: a concrete successful compile is passed through. -/
theorem claim_C9_mjml2html_total_witness :
    Helper.mjml2html (Except.ok ⟨some "x"⟩) = some "x" :=
  ((claim_C9_mjml2html_total (Except.ok ⟨some "x"⟩)).2 ⟨some "x"⟩
    rfl).2 "x" rfl (by decide)

/-- C10: IDMap round trip: when a document URI string is not yet present,
`add` followed by `getByUri` returns the id just created and `hasUri` holds;
a string never added is found by neither. -/
theorem claim_C10_idmap_roundtrip (m : IDMap.T) (d : String) (p : Uri)
    (id : String) :
    (IDMap.getByUri m d = none →
      IDMap.getByUri (IDMap.add m d p id).1 d = some id ∧
      IDMap.hasUri (IDMap.add m d p id).1 d = true ∧
      (IDMap.add m d p id).2 = id) ∧
    ((∀ e ∈ m, e.1.1 ≠ d) →
      IDMap.getByUri m d = none ∧ IDMap.hasUri m d = false) := by
  constructor
  · intro h
    have hf : List.find? (fun e => e.1.1 == d) m = none := by
      cases hh : List.find? (fun e => e.1.1 == d) m with
      | none => rfl
      | some e =>
        unfold IDMap.getByUri at h
        rw [hh] at h
        simp at h
    have hget : IDMap.getByUri (IDMap.add m d p id).1 d = some id := by
      unfold IDMap.getByUri IDMap.add
      rw [List.find?_append, hf]
      simp [List.find?]
    refine ⟨hget, ?_, rfl⟩
    unfold IDMap.hasUri
    rw [hget]
    rfl
  · intro h
    have hf : List.find? (fun e => e.1.1 == d) m = none :=
      List.find?_eq_none.mpr (by intro x hx; simpa using h x hx)
    constructor
    · unfold IDMap.getByUri
      rw [hf]
      rfl
    · unfold IDMap.hasUri IDMap.getByUri
      rw [hf]
      rfl

/-- C10 witness: a concrete add into the empty map is found again. -/
theorem claim_C10_idmap_roundtrip_witness :
    IDMap.getByUri (IDMap.add [] "doc" ⟨"prev"⟩ "id1").1 "doc" =
      some "id1" :=
  ((claim_C10_idmap_roundtrip [] "doc" ⟨"prev"⟩ "id1").1 rfl).1

/-- C2: for every document the preview content pipeline `getContent`
returns either the post-processed compiler HTML or an error placeholder of
the form `<body>` ++ message ++ `</body>` (totality models never throwing):
a templating throw yields the placeholder with the error text, and a falsy
compiler result yields the placeholder with the fixed message. -/
theorem claim_C2_getContent_cases (fs : FS) (doc : Document)
    (render : String → String → Except String String)
    (mjmlCall : String → Option String) (fixImagesF setBg : String → String)
    (docs : List String) :
    ((∃ s, (Preview.getContent fs doc render mjmlCall fixImagesF setBg
        docs).1 = setBg (fixImagesF s)) ∨
     (∃ m, (Preview.getContent fs doc render mjmlCall fixImagesF setBg
        docs).1 = "<body>" ++ m ++ "</body>")) ∧
    (∀ e, Helper.compileHtml fs doc.fileName render doc.text =
        Except.error e →
      (Preview.getContent fs doc render mjmlCall fixImagesF setBg docs).1 =
        "<body>" ++ e ++ "</body>") ∧
    (∀ h, Helper.compileHtml fs doc.fileName render doc.text =
        Except.ok h →
      (mjmlCall h = none ∨ mjmlCall h = some "") →
      (Preview.getContent fs doc render mjmlCall fixImagesF setBg docs).1 =
        "<body>" ++ noMjmlMsg ++ "</body>") := by
  refine ⟨?_, ?_, ?_⟩
  · cases hc : Helper.compileHtml fs doc.fileName render doc.text with
    | error e =>
      exact Or.inr ⟨e, by simp [Preview.getContent, hc, Preview.error]⟩
    | ok h =>
      cases hm : mjmlCall h with
      | none =>
        exact Or.inr ⟨noMjmlMsg,
          by simp [Preview.getContent, hc, hm, Preview.error]⟩
      | some s =>
        by_cases hs : s = ""
        · subst hs
          exact Or.inr ⟨noMjmlMsg,
            by simp [Preview.getContent, hc, hm, Preview.error]⟩
        · exact Or.inl ⟨s,
            by simp [Preview.getContent, hc, hm, Preview.error, hs]⟩
  · intro e he
    simp [Preview.getContent, he, Preview.error]
  · intro h hh hfalsy
    rcases hfalsy with hm | hm <;>
      simp [Preview.getContent, hh, hm, Preview.error]

/-- C2 witness: with `preview.json` open and a throwing templating engine
the pipeline returns the placeholder carrying the error text. -/
theorem claim_C2_getContent_cases_witness :
    (Preview.getContent fsPrev docMjml renderBoom mjmlNone id id []).1 =
      "<body>" ++ "boom" ++ "</body>" :=
  (claim_C2_getContent_cases fsPrev docMjml renderBoom mjmlNone id id
    []).2.1 "boom" (by rfl)

/-- C3, counterexample: the claim says the exported content equals the
preview content, but at a concrete document whose compiled HTML holds a
relative link the export (which never applies `fixLinks`) hands the raw
compiler output to the file write, while the preview applies `fixLinks`;
the two strings differ. -/
theorem claim_C3_export_eq_preview_cex :
    ExportHTML.exportContent fsEmpty docMjml toUrlDemo callImg renderId
      false false = Except.ok (some imgRel) ∧
    PreviewContentProvider.renderMJML fsEmpty docMjml toUrlDemo callImg
      renderId =
      "<img src=" ++ squo ++ "file:///d/a.png" ++ squo ++ ">" ∧
    imgRel ≠ "<img src=" ++ squo ++ "file:///d/a.png" ++ squo ++ ">" := by
  exact ⟨by rfl, by rfl, by decide⟩

/-- C3, amended: export and preview share the templating pre-pass and the
markup compilation, but export does not rewrite asset links:
`renderMJML` applies `fixLinks` only when its optional `fixLinks` argument
is passed and true, and the export command passes no optional arguments
(its minify/beautify flags come from the configuration, here taken off so
both sides compile alike); the preview applies `fixLinks` to the same
compiled output, so preview content = `fixLinks` of exported content. -/
theorem claim_C3_export_skips_fixLinks (fs : FS) (doc : Document)
    (toUrl : String → String)
    (call : String → Bool → Bool → Except String Helper.MjmlOutput)
    (render : String → String → Except String String) (h c : String)
    (hdoc : Helper.isMJMLFile doc = true)
    (hc : Helper.compileHtml fs doc.fileName render doc.text =
      Except.ok h)
    (hm : Helper.mjml2html (call h false false) = some c) :
    ExportHTML.exportContent fs doc toUrl call render false false =
      Except.ok (some c) ∧
    PreviewContentProvider.renderMJML fs doc toUrl call render =
      Helper.fixLinks toUrl c := by
  constructor
  · simp [ExportHTML.exportContent, Helper.renderMJML, hdoc, hc, hm]
  · simp [PreviewContentProvider.renderMJML, hc, hm]

/-- C3 witness: the amended relation holds at the concrete document of the
counterexample. -/
theorem claim_C3_export_skips_fixLinks_witness :
    ExportHTML.exportContent fsEmpty docMjml toUrlDemo callImg renderId
      false false = Except.ok (some imgRel) ∧
    PreviewContentProvider.renderMJML fsEmpty docMjml toUrlDemo callImg
      renderId = Helper.fixLinks toUrlDemo imgRel :=
  claim_C3_export_skips_fixLinks fsEmpty docMjml toUrlDemo callImg renderId
    "<mjml/>" imgRel (by decide) (by rfl) (by rfl)

/-- C1: the controller owns at most one live panel: under the panel-count
coupling invariant, `displayWebView` preserves the invariant and leaves at
most one live panel; when a webview exists no panel is created (the count
is unchanged) and the existing panel is updated in place (only the tracked
list and the panel title/HTML change); a panel is created (count up by one)
only from the undefined-webview state; disposal also preserves the
invariant. -/
theorem claim_C1_single_panel (fs : FS)
    (render : String → String → Except String String)
    (mjmlCall : String → Option String) (fixImagesF setBg : String → String)
    (s : Preview.State) (doc : Document) (aEd : Option Document)
    (hinv : Preview.WebviewInv s) :
    Preview.WebviewInv
      (Preview.displayWebView fs render mjmlCall fixImagesF setBg s doc
        aEd) ∧
    (Preview.displayWebView fs render mjmlCall fixImagesF setBg s doc
      aEd).livePanels ≤ 1 ∧
    (s.webview.isSome = true →
      (Preview.displayWebView fs render mjmlCall fixImagesF setBg s doc
        aEd).livePanels = s.livePanels) ∧
    (∀ p aDoc, s.webview = some p → Helper.isMJMLFile doc = true →
      aEd = some aDoc →
      Preview.displayWebView fs render mjmlCall fixImagesF setBg s doc aEd =
        { s with
          openedDocuments := (Preview.getContent fs doc render mjmlCall
            fixImagesF setBg s.openedDocuments).2,
          webview := some ⟨"MJML Preview - " ++ baseName aDoc.fileName,
            (Preview.getContent fs doc render mjmlCall fixImagesF setBg
              s.openedDocuments).1⟩ }) ∧
    (∀ aDoc, s.webview = none → Helper.isMJMLFile doc = true →
      aEd = some aDoc →
      (Preview.displayWebView fs render mjmlCall fixImagesF setBg s doc
        aEd).livePanels = s.livePanels + 1) ∧
    Preview.WebviewInv (Preview.dispose s) := by
  have hle : s.livePanels ≤ 1 := by
    unfold Preview.WebviewInv at hinv
    rw [hinv]
    split <;> omega
  have hdisp : Preview.WebviewInv (Preview.dispose s) := by
    unfold Preview.WebviewInv Preview.dispose at *
    cases hw : s.webview with
    | none => simpa [hw] using hinv
    | some p =>
      simp [hw] at hinv ⊢
      omega
  by_cases hm : Helper.isMJMLFile doc = true
  · cases aEd with
    | none =>
      have hd : Preview.displayWebView fs render mjmlCall fixImagesF setBg
          s doc none = s := by
        simp [Preview.displayWebView, hm]
      exact ⟨by rw [hd]; exact hinv, by rw [hd]; exact hle,
        fun _ => by rw [hd], fun p aDoc _ _ hae => by simp at hae,
        fun aDoc _ _ hae => by simp at hae, hdisp⟩
    | some aDoc =>
      cases hw : s.webview with
      | none =>
        have h0 : s.livePanels = 0 := by
          simpa [Preview.WebviewInv, hw] using hinv
        refine ⟨?_, ?_, ?_, ?_, ?_, hdisp⟩
        · simp [Preview.displayWebView, Preview.WebviewInv, hm, hw, h0]
        · simp [Preview.displayWebView, hm, hw, h0]
        · intro hsome
          simp at hsome
        · intro p aDoc2 hp
          simp at hp
        · intro aDoc2 _ _ _
          simp [Preview.displayWebView, hm, hw]
      | some p =>
        have h1 : s.livePanels = 1 := by
          simpa [Preview.WebviewInv, hw] using hinv
        refine ⟨?_, ?_, ?_, ?_, ?_, hdisp⟩
        · simp [Preview.displayWebView, Preview.WebviewInv, hm, hw, h1]
        · simp [Preview.displayWebView, hm, hw, h1]
        · intro _
          simp [Preview.displayWebView, hm, hw]
        · intro p2 aDoc2 hp hm2 hae
          injection hae with hae2
          subst hae2
          simp [Preview.displayWebView, hm, hw]
        · intro aDoc2 hnone
          simp at hnone
  · have hmf : Helper.isMJMLFile doc = false := by
      revert hm
      cases Helper.isMJMLFile doc <;> simp
    have hd : Preview.displayWebView fs render mjmlCall fixImagesF setBg
        s doc aEd = s := by
      simp [Preview.displayWebView, hmf]
    exact ⟨by rw [hd]; exact hinv, by rw [hd]; exact hle,
      fun _ => by rw [hd], fun p aDoc _ hm2 _ => absurd hm2 hm,
      fun aDoc _ hm2 _ => absurd hm2 hm, hdisp⟩

/-- C1 witness: starting from the empty state (invariant holds) a render of
a previewable document leaves at most one live panel. -/
theorem claim_C1_single_panel_witness :
    (Preview.displayWebView fsEmpty renderId mjmlEcho id id stateEmpty
      docMjml (some docMjml)).livePanels ≤ 1 :=
  (claim_C1_single_panel fsEmpty renderId mjmlEcho id id stateEmpty
    docMjml (some docMjml) (by rfl)).2.1

/-- C6: on a document-close event while the preview is open (flag set and a
webview present), the closed file name is removed from the tracked list;
when the list is then empty and auto-close is configured the surface is
disposed, and otherwise the webview and the panel count are untouched by
the event. -/
theorem claim_C6_close_tracking (autoClose : Bool) (s : Preview.State)
    (d : Document) (hopen : s.previewOpen = true)
    (hweb : s.webview.isSome = true) :
    ((Preview.onDidCloseTextDocument autoClose s (some d)).openedDocuments =
      Preview.removeDocument s.openedDocuments d.fileName) ∧
    ((Preview.removeDocument s.openedDocuments d.fileName).length = 0 ∧
        autoClose = true →
      (Preview.onDidCloseTextDocument autoClose s (some d)).webview =
        none) ∧
    (¬((Preview.removeDocument s.openedDocuments d.fileName).length = 0 ∧
        autoClose = true) →
      (Preview.onDidCloseTextDocument autoClose s (some d)).webview =
        s.webview ∧
      (Preview.onDidCloseTextDocument autoClose s (some d)).livePanels =
        s.livePanels) := by
  obtain ⟨p, hp⟩ := Option.isSome_iff_exists.mp hweb
  refine ⟨?_, ?_, ?_⟩
  · simp only [Preview.onDidCloseTextDocument, hopen, hweb, Bool.and_self,
      if_true]
    split <;> simp [Preview.dispose, hp]
  · intro hca
    simp [Preview.onDidCloseTextDocument, hopen, hweb, hca.1, hca.2,
      Preview.dispose, hp]
  · intro hnc
    have hb : (((Preview.removeDocument s.openedDocuments
        d.fileName).length == 0) && autoClose) = false := by
      by_cases h1 : (Preview.removeDocument s.openedDocuments
          d.fileName).length = 0
      · by_cases h2 : autoClose = true
        · exact absurd ⟨h1, h2⟩ hnc
        · simp [h2]
      · simp [h1]
    simp [Preview.onDidCloseTextDocument, hopen, hweb, hb]

/-- C6 witness: closing the only tracked document with auto-close enabled
removes it from the tracked list. -/
theorem claim_C6_close_tracking_witness :
    (Preview.onDidCloseTextDocument true statePanel
      (some docMjml)).openedDocuments =
      Preview.removeDocument statePanel.openedDocuments docMjml.fileName :=
  (claim_C6_close_tracking true statePanel docMjml rfl rfl).1
